import Mathlib

/-!
Verification development for the promy promise library (src/promy.py).

The Python source is shallowly embedded as a small-step model over a world
holding every promise record, every adopted duck thenable, the FIFO queue of
tasks handed to the external scheduler (set_timeout via the jsruntime module),
and an observation log.  The closures the source creates (the listeners that
Promise.then registers, the tryer wrapper around a user canceller, the
on_cancel forwarder and the on_done / on_fail / on_progress triple built by
the thenable adoption code) are defunctionalized as constructors of the
Listener, Task and DuckReg types; user callbacks handed to then are
defunctionalized as the UserCB type.

Two facts about the Python runtime matter for faithfulness and are modelled
exactly:
 1. inspect.isfunction returns False on a bound method, so the probe
    isfunction(getattr(value, "then", None)) in handle_thenable accepts only
    objects whose then attribute is a plain function (modelled as duck
    thenables) and rejects Promise instances themselves; the same holds for
    the cancel probe inside the on_cancel forwarder.
 2. scheduled callbacks run strictly after the scheduling frame returns, in
    FIFO order; they are kept in the world as Task values and executed by
    runTasks.
-/

namespace Promy

abbrev PId := Nat
abbrev DId := Nat

/-- Runtime values flowing through the library: the Python None object,
plain data (prim), the two exception kinds the source constructs
(TypeError in handle_thenable, CancelException in cancelCore), references
to Promise instances and references to duck thenables. -/
inductive Value where
  | vnone : Value
  | prim : Nat → Value
  | typeError : String → Value
  | cancelExn : String → Value
  | promiseRef : PId → Value
  | duckRef : DId → Value
deriving DecidableEq, Repr

/-- Event kinds of the listener registry; the source uses the string keys
promise:resolved, promise:rejected, promise:notified, promise:cancelled. -/
inductive EvType where
  | resolved | rejected | notified | cancelled
deriving DecidableEq, Repr

/-- Defunctionalized user callbacks handed to then / catch / progress:
a callback returning a constant, the identity callback, and a callback
raising an exception. -/
inductive UserCB where
  | retv : Value → UserCB
  | ident : UserCB
  | raiseE : Value → UserCB
deriving DecidableEq, Repr

/-- Run a user callback: normal return or raised exception. -/
def runCB : UserCB → Value → Except Value Value
  | .retv v, _ => .ok v
  | .ident, x => .ok x
  | .raiseE e, _ => .error e

/-- Defunctionalized code of a user canceller or of a listener added through
the generic listener facility: record a mark in the world log, or raise. -/
inductive RawCode where
  | mark : Nat → RawCode
  | raiseE : Value → RawCode
deriving DecidableEq, Repr

/-- Defunctionalized listeners as created by the source: the three closures
Promise.then registers on a pending promise (lines 207 to 215), the tryer
wrapper around a user canceller (lines 176 to 179), the on_cancel forwarder
registered during thenable adoption (lines 98 to 103), and a raw listener
added through the generic facility. -/
inductive Listener where
  | thenDone : PId → Option UserCB → Listener
  | thenFail : PId → Option UserCB → Listener
  | thenProgress : PId → Option UserCB → Listener
  | tryer : RawCode → Listener
  | cancelFwd : Value → Listener
  | raw : RawCode → Listener
deriving DecidableEq, Repr

/-- Per promise record: the five fields Promise.__init__ initializes
(lines 167 to 171) plus the _events mapping, kept as one ordered list of
pairs; per event kind the order is registration order, exactly as the
single listener / listener list storage of _on behaves. -/
structure PromiseRec where
  rejected : Bool := false
  fulfilled : Bool := false
  rejected_reason : Value := .vnone
  fulfillment_value : Value := .vnone
  settled : Bool := false
  events : List (EvType × Listener) := []
deriving DecidableEq, Repr

/-- One registration made by handle_thenable on a duck thenable: the outer
promise being resolved, the shared one-shot cell resolved[0], and the
captured value variable (the duck itself) used by the `value is not val`
identity test inside on_done. -/
structure DuckReg where
  outer : PId
  resolvedFlag : Bool
  valueSelf : Value
deriving DecidableEq, Repr

/-- A duck thenable: a foreign object whose then attribute is a plain
function.  Its then either registers the callback triple or raises; its
cancel attribute exists when hasCancel is true, and calling it sets
cancelRequested. -/
structure DuckRec where
  regs : List DuckReg := []
  hasCancel : Bool := false
  cancelRequested : Bool := false
  thenRaises : Option Value := none
deriving DecidableEq, Repr

/-- Tasks handed to the external scheduler by _async: the emission lambdas
of _fulfill, _reject, _notify and _cancel, and the on_done / on_fail
closures Promise.then schedules when the receiver is already settled
(lines 195 to 205); those closures read the stored outcome at run time. -/
inductive Task where
  | emitT : PId → EvType → Value → Task
  | lateDone : PId → PId → Option UserCB → Task
  | lateFail : PId → PId → Option UserCB → Task
deriving DecidableEq, Repr

/-- The whole mutable state: all promise records, all duck thenables, the
FIFO scheduler queue, the observation log, and the id sources. -/
structure World where
  promises : List (PId × PromiseRec) := []
  ducks : List (DId × DuckRec) := []
  tasks : List Task := []
  log : List Nat := []
  nextP : PId := 0
  nextD : DId := 0
deriving DecidableEq, Repr

/-- First entry with the given key in an association list. -/
def assocFind {α : Type} : List (Nat × α) → Nat → Option α
  | [], _ => none
  | (k, a) :: l, q => if k = q then some a else assocFind l q

/-- Apply f to every entry with the given key. -/
def assocUpd {α : Type} : List (Nat × α) → Nat → (α → α) → List (Nat × α)
  | [], _, _ => []
  | (k1, a) :: t, k, f =>
    (if k1 = k then (k1, f a) else (k1, a)) :: assocUpd t k f

def lookupP (w : World) (p : PId) : Option PromiseRec :=
  assocFind w.promises p

def updP (w : World) (p : PId) (f : PromiseRec → PromiseRec) : World :=
  { w with promises := assocUpd w.promises p f }

def lookupD (w : World) (d : DId) : Option DuckRec :=
  assocFind w.ducks d

def updD (w : World) (d : DId) (f : DuckRec → DuckRec) : World :=
  { w with ducks := assocUpd w.ducks d f }

def pushTask (w : World) (t : Task) : World :=
  { w with tasks := w.tasks ++ [t] }

def pushLog (w : World) (n : Nat) : World :=
  { w with log := w.log ++ [n] }

/-- _on (lines 26 to 35): append the listener to the sequence for that event
kind.  The single listener versus listener list storage of the source is a
storage optimization; per event kind the observable invocation order is the
append order, which one flat ordered list preserves. -/
def onEv (w : World) (p : PId) (t : EvType) (l : Listener) : World :=
  updP w p fun r => { r with events := r.events ++ [(t, l)] }

/-- _fulfill (lines 57 to 62): no-op when settled, else set the flags and
the value and schedule the promise:resolved emission. -/
def fulfill (w : World) (p : PId) (v : Value) : World :=
  match lookupP w p with
  | none => w
  | some r =>
    if r.settled then w
    else
      pushTask
        (updP w p fun r =>
          { r with fulfilled := true, settled := true, fulfillment_value := v })
        (.emitT p .resolved v)

/-- _reject (lines 64 to 69): no-op when settled, else set the flags and
the reason and schedule the promise:rejected emission. -/
def reject (w : World) (p : PId) (v : Value) : World :=
  match lookupP w p with
  | none => w
  | some r =>
    if r.settled then w
    else
      pushTask
        (updP w p fun r =>
          { r with rejected := true, settled := true, rejected_reason := v })
        (.emitT p .rejected v)

/-- _notify (lines 71 to 73): no-op when settled, else schedule the
promise:notified emission; no state change. -/
def notify (w : World) (p : PId) (v : Value) : World :=
  match lookupP w p with
  | none => w
  | some r =>
    if r.settled then w
    else pushTask w (.emitT p .notified v)

/-- _handle_thenable (lines 90 to 124).  Returns the world and whether
adoption applied.  The identity guard raises the TypeError which the
enclosing try converts to a rejection.  Only a duck passes the
isfunction(getattr(value, "then", None)) probe (a then found on a Promise
instance is a bound method, for which isfunction is False).  The on_cancel
forwarder is registered before value.then is called, so it stays registered
even when value.then raises. -/
def handle_thenable (w : World) (p : PId) (value : Value) : World × Bool :=
  if value = .promiseRef p then
    (reject w p (.typeError "A promise callback cannot return that same promise."), true)
  else
    match value with
    | .duckRef d =>
      match lookupD w d with
      | none => (w, false)
      | some dr =>
        let w1 := onEv w p .cancelled (.cancelFwd value)
        match dr.thenRaises with
        | some e => (reject w1 p e, true)
        | none =>
          (updD w1 d fun du =>
            { du with regs := du.regs ++ [⟨p, false, value⟩] }, true)
    | _ => (w, false)

/-- _resolve (lines 84 to 88): when the value is the promise itself the
thenable path is skipped and the promise is fulfilled with itself;
otherwise adoption is attempted and plain fulfillment is the fallback. -/
def resolve (w : World) (p : PId) (value : Value) : World :=
  if value = .promiseRef p then fulfill w p value
  else
    let hr := handle_thenable w p value
    if hr.2 then hr.1 else fulfill hr.1 p value

/-- The resolver argument of _invoke_callback: _resolve or _reject. -/
inductive Resolver where
  | res | rej
deriving DecidableEq, Repr

def applyResolver : Resolver → World → PId → Value → World
  | .res, w, p, v => resolve w p v
  | .rej, w, p, v => reject w p v

/-- _invoke_callback (lines 126 to 149).  With no callback the source sets
the misspelled local succeded, so the flag named succeeded stays False and
control reaches the final resolver branch; _handle_thenable is consulted on
the pass-through value first, exactly as in the source. -/
def invoke_callback (rsv : Resolver) (w : World) (p : PId)
    (cb : Option UserCB) (detail : Value) : World :=
  match lookupP w p with
  | none => w
  | some r =>
    if r.settled then w
    else
      match cb with
      | some c =>
        match runCB c detail with
        | .ok value =>
          let hr := handle_thenable w p value
          if hr.2 then hr.1 else resolve hr.1 p value
        | .error e =>
          let hr := handle_thenable w p .vnone
          if hr.2 then hr.1 else reject hr.1 p e
      | none =>
        let hr := handle_thenable w p detail
        if hr.2 then hr.1 else applyResolver rsv hr.1 p detail

/-- _invoke_notify_callback (lines 151 to 161): a raising progress callback
stops propagation of this notification, nothing else happens. -/
def invoke_notify_callback (w : World) (p : PId)
    (cb : Option UserCB) (detail : Value) : World :=
  match lookupP w p with
  | none => w
  | some r =>
    if r.settled then w
    else
      match cb with
      | some c =>
        match runCB c detail with
        | .ok v => notify w p v
        | .error _ => w
      | none => notify w p detail

/-- The body of the on_cancel forwarder (lines 98 to 102): forward cancel
to the adopted value when its cancel attribute is a plain function; a
Promise instance fails the isfunction probe (bound method), so nothing is
forwarded to it; any exception is swallowed. -/
def fwdCancel (w : World) (v : Value) : World :=
  match v with
  | .duckRef d =>
    match lookupD w d with
    | some dr =>
      if dr.hasCancel then updD w d fun du => { du with cancelRequested := true }
      else w
    | none => w
  | _ => w

/-- Run one listener on a payload; the second component is the exception
the listener let escape, if any.  Only a raw raising listener lets one
escape: the tryer wrapper, the on_cancel forwarder and the notify adapter
catch their own exceptions, and the then reaction adapters convert callback
exceptions into rejections. -/
def runListener (w : World) (l : Listener) (detail : Value) :
    World × Option Value :=
  match l with
  | .thenDone tp cb => (invoke_callback .res w tp cb detail, none)
  | .thenFail tp cb => (invoke_callback .rej w tp cb detail, none)
  | .thenProgress tp cb => (invoke_notify_callback w tp cb detail, none)
  | .tryer c =>
    match c with
    | .mark n => (pushLog w n, none)
    | .raiseE _ => (w, none)
  | .cancelFwd v => (fwdCancel w v, none)
  | .raw c =>
    match c with
    | .mark n => (pushLog w n, none)
    | .raiseE e => (w, some e)

/-- The iteration of _emit over the snapshot: listeners run in order until
one raises; a raised exception aborts the remaining listeners and escapes
to the caller of _emit (the source loop has no try around the call). -/
def runListeners (w : World) (ls : List Listener) (detail : Value) :
    World × Option Value :=
  match ls with
  | [] => (w, none)
  | l :: rest =>
    let r := runListener w l detail
    match r.2 with
    | some e => (r.1, some e)
    | none => runListeners r.1 rest detail

/-- Listeners registered on a promise for one event kind, in registration
order. -/
def listenersOf (w : World) (p : PId) (t : EvType) : List Listener :=
  match lookupP w p with
  | none => []
  | some r => (r.events.filter fun e => decide (e.1 = t)).map (·.2)

/-- _emit (lines 37 to 50): no listeners means no-op, otherwise the
snapshot of the current listener sequence is invoked in order; an
exception from a listener escapes, aborting the rest of the emission. -/
def emit (w : World) (p : PId) (t : EvType) (detail : Value) :
    World × Option Value :=
  runListeners w (listenersOf w p t) detail

/-- _cancel (lines 75 to 82): when pending, mark rejected with the
CancelException, emit promise:cancelled synchronously, then schedule the
promise:rejected emission.  When the synchronous emission raises, the
exception escapes before the rejected emission is scheduled. -/
def cancelCore (w : World) (p : PId) : World × Option Value :=
  let value := Value.cancelExn "Cancelled"
  match lookupP w p with
  | none => (w, none)
  | some r =>
    if r.settled then (w, none)
    else
      let w1 := updP w p fun r =>
        { r with rejected := true, settled := true, rejected_reason := value }
      let er := emit w1 p .cancelled .vnone
      match er.2 with
      | some e => (er.1, some e)
      | none => (pushTask er.1 (.emitT p .rejected value), none)

/-- Promise.cancel (lines 224 to 226): call _cancel when not settled. -/
def cancelMeth (w : World) (p : PId) : World :=
  match lookupP w p with
  | none => w
  | some r => if r.settled then w else (cancelCore w p).1

/-- The on_done closure of handle_thenable (lines 104 to 111), fired for
the registration at index i of duck d: one-shot guarded by the shared
resolved cell; when the incoming value is the adopted value itself the
outer promise is fulfilled with it directly, otherwise it is resolved. -/
def fireDoneAt (w : World) (d : DId) (i : Nat) (val : Value) : World :=
  match lookupD w d with
  | none => w
  | some dr =>
    match dr.regs.get? i with
    | none => w
    | some reg =>
      if reg.resolvedFlag then w
      else
        let w1 := updD w d fun du =>
          { du with regs := du.regs.set i { reg with resolvedFlag := true } }
        if val = reg.valueSelf then fulfill w1 reg.outer val
        else resolve w1 reg.outer val

/-- The on_fail closure of handle_thenable (lines 112 to 116), fired for
the registration at index i of duck d. -/
def fireFailAt (w : World) (d : DId) (i : Nat) (val : Value) : World :=
  match lookupD w d with
  | none => w
  | some dr =>
    match dr.regs.get? i with
    | none => w
    | some reg =>
      if reg.resolvedFlag then w
      else
        let w1 := updD w d fun du =>
          { du with regs := du.regs.set i { reg with resolvedFlag := true } }
        reject w1 reg.outer val

/-- The on_progress closure of handle_thenable (lines 117 to 118): no
guard, plain notify of the outer promise. -/
def fireProgAt (w : World) (d : DId) (i : Nat) (val : Value) : World :=
  match lookupD w d with
  | none => w
  | some dr =>
    match dr.regs.get? i with
    | none => w
    | some reg => notify w reg.outer val

/-- Iterate a per-registration action over indices i, i+1, ... for the
given count. -/
def fireLoop (step : World → Nat → World) (w : World) : Nat → Nat → World
  | _, 0 => w
  | i, n + 1 => fireLoop step (step w i) (i + 1) n

/-- A well behaved duck settling fulfilled: it calls every registered
on_done callback with the value. -/
def duckDo (w : World) (d : DId) (val : Value) : World :=
  match lookupD w d with
  | none => w
  | some dr => fireLoop (fun w i => fireDoneAt w d i val) w 0 dr.regs.length

/-- A well behaved duck settling rejected: it calls every registered
on_fail callback with the reason. -/
def duckFailOp (w : World) (d : DId) (val : Value) : World :=
  match lookupD w d with
  | none => w
  | some dr => fireLoop (fun w i => fireFailAt w d i val) w 0 dr.regs.length

/-- A duck emitting a progress notification: it calls every registered
on_progress callback with the payload. -/
def duckNotifyOp (w : World) (d : DId) (val : Value) : World :=
  match lookupD w d with
  | none => w
  | some dr => fireLoop (fun w i => fireProgAt w d i val) w 0 dr.regs.length

/-- Promise.__init__ (lines 166 to 189): allocate a fresh pending record
with all five fields at their initial values and register the tryer
wrapper around the canceller when one is supplied.  The executor is
external code whose only capabilities are the resolve, reject and notify
closures bound to this promise; its calls are modelled as subsequent world
operations. -/
def initPromise (w : World) (canceller : Option RawCode) : World × PId :=
  let p := w.nextP
  let w1 : World :=
    { w with promises := (p, {}) :: w.promises, nextP := p + 1 }
  match canceller with
  | some c => (onEv w1 p .cancelled (.tryer c), p)
  | none => (w1, p)

/-- Promise.then (lines 191 to 216): create the derived promise; when the
receiver is settled schedule the matching reaction closure (both flag
branches are tested, as in the source), otherwise register the reaction
listeners; the progress listener is registered in every case. -/
def thenMeth (w : World) (p : PId) (done fail prog : Option UserCB) :
    World × PId :=
  let ip := initPromise w none
  let w0 := ip.1
  let tp := ip.2
  let w1 :=
    match lookupP w0 p with
    | none => w0
    | some r =>
      if r.settled then
        let wA := if r.fulfilled then pushTask w0 (.lateDone p tp done) else w0
        if r.rejected then pushTask wA (.lateFail p tp fail) else wA
      else
        onEv (onEv w0 p .resolved (.thenDone tp done)) p .rejected (.thenFail tp fail)
  (onEv w1 p .notified (.thenProgress tp prog), tp)

/-- Promise.catch (lines 218 to 219). -/
def catchMeth (w : World) (p : PId) (fail : Option UserCB) : World × PId :=
  thenMeth w p none fail none

/-- Promise.progress (lines 221 to 222). -/
def progressMeth (w : World) (p : PId) (prog : Option UserCB) : World × PId :=
  thenMeth w p none none prog

/-- Allocate a duck thenable. -/
def newDuck (w : World) (hasCancel : Bool) (thenRaises : Option Value) :
    World × DId :=
  let d := w.nextD
  ({ w with
      ducks := (d, { hasCancel := hasCancel, thenRaises := thenRaises }) :: w.ducks,
      nextD := d + 1 }, d)

/-- Execute one scheduled task.  The late reaction closures read the
stored outcome of the source promise at run time, exactly as the closures
in Promise.then do.  An exception escaping an emission is absorbed by the
scheduler boundary. -/
def runTask (w : World) (t : Task) : World :=
  match t with
  | .emitT p ty d => (emit w p ty d).1
  | .lateDone p tp cb =>
    match lookupP w p with
    | some r => invoke_callback .res w tp cb r.fulfillment_value
    | none => w
  | .lateFail p tp cb =>
    match lookupP w p with
    | some r => invoke_callback .rej w tp cb r.rejected_reason
    | none => w

/-- Run scheduled tasks FIFO, up to the given fuel. -/
def runTasks (w : World) : Nat → World
  | 0 => w
  | f + 1 =>
    match w.tasks with
    | [] => w
    | t :: rest => runTasks (runTask { w with tasks := rest } t) f

/-- The three settlement calls of claim C1. -/
inductive SettleOp where
  | fulfillO : Value → SettleOp
  | rejectO : Value → SettleOp
  | cancelO : SettleOp
deriving DecidableEq, Repr

def applySettleOp (w : World) (p : PId) : SettleOp → World
  | .fulfillO v => fulfill w p v
  | .rejectO v => reject w p v
  | .cancelO => cancelMeth w p

def applySettleOps (w : World) (p : PId) : List SettleOp → World
  | [] => w
  | o :: os => applySettleOps (applySettleOp w p o) p os

/-- Every operation of the public surface and of the adoption driver, for
the lifetime invariant of claim C10. -/
inductive Step where
  | newP : Option RawCode → Step
  | newDuckS : Bool → Option Value → Step
  | fulfillS : PId → Value → Step
  | rejectS : PId → Value → Step
  | notifyS : PId → Value → Step
  | cancelS : PId → Step
  | resolveS : PId → Value → Step
  | thenS : PId → Option UserCB → Option UserCB → Option UserCB → Step
  | duckDoneS : DId → Value → Step
  | duckFailS : DId → Value → Step
  | duckNotifyS : DId → Value → Step
  | tick : Step
deriving DecidableEq, Repr

def runStep (w : World) : Step → World
  | .newP c => (initPromise w c).1
  | .newDuckS hc tr => (newDuck w hc tr).1
  | .fulfillS p v => fulfill w p v
  | .rejectS p v => reject w p v
  | .notifyS p v => notify w p v
  | .cancelS p => cancelMeth w p
  | .resolveS p v => resolve w p v
  | .thenS p d f pr => (thenMeth w p d f pr).1
  | .duckDoneS d v => duckDo w d v
  | .duckFailS d v => duckFailOp w d v
  | .duckNotifyS d v => duckNotifyOp w d v
  | .tick =>
    match w.tasks with
    | [] => w
    | t :: rest => runTask { w with tasks := rest } t

def runSteps (w : World) : List Step → World
  | [] => w
  | s :: ss => runSteps (runStep w s) ss

/-- The record level flag invariant of claim C10: settled is the
disjunction of fulfilled and rejected, and the two are never both true. -/
def RInv (r : PromiseRec) : Prop :=
  r.settled = (r.fulfilled || r.rejected) ∧ ¬(r.fulfilled = true ∧ r.rejected = true)

/-- The world level invariant: every promise record satisfies RInv. -/
def WInv (w : World) : Prop :=
  ∀ p r, lookupP w p = some r → RInv r

/-- The exception a listener lets escape, by listener shape. -/
def raisesOn (l : Listener) : Option Value :=
  match l with
  | .raw (.raiseE e) => some e
  | _ => none

/-- One fresh pending promise with id 0, used by several witnesses. -/
def pendingW : World := (initPromise {} none).1

/-- Scenario for claim C2: promise 0 is pending and is resolved with the
duck thenable 0, so adoption has registered the callback triple on the
duck and the cancel forwarder on the promise. -/
def c2base : World :=
  let s0 := initPromise {} none
  let s1 := newDuck s0.1 false none
  resolve s1.1 0 (.duckRef 0)

/-- Scenario for claim C3: promise 0 carries two listeners for the
resolved event, added through the generic listener facility; the first
raises, the second records a mark. -/
def c3base : World :=
  onEv (onEv (initPromise {} none).1 0 .resolved (.raw (.raiseE (.prim 99))))
    0 .resolved (.raw (.mark 1))

/-- Scenario for claim C4: promise 0 is constructed with a user canceller
that records mark n, adopts the cancellable duck 0, and promise 1 derived
by then observes its settlement. -/
def c4world (n : Nat) : World :=
  let s0 := initPromise {} (some (.mark n))
  let s1 := newDuck s0.1 true none
  let w2 := resolve s1.1 0 (.duckRef 0)
  (thenMeth w2 0 none none none).1

/-- Base world for claim C5: promise 0 pending, duck 0 allocated. -/
def c5base : World :=
  let s0 := initPromise {} none
  (newDuck s0.1 false none).1

/-- Scenario for claim C5: promise 0 is rejected with reason r, promise 1
is derived by catch with no handler, and the scheduled reactions run. -/
def c5run (r : Value) : World :=
  runTasks (catchMeth (reject c5base 0 r) 0 none).1 4

/-- Scenario for the second half of claim C6: promise 0 is fulfilled, a
then callback returns the derived promise 1 itself, and the scheduled
reaction runs. -/
def c6world : World :=
  let s0 := initPromise {} none
  let w1 := fulfill s0.1 0 (.prim 0)
  runTasks (thenMeth w1 0 (some (.retv (.promiseRef 1))) none none).1 3

/-- Scenario for claim C7: pending promise 0 has two derived promises,
the first with a raising progress handler, the second with the identity
progress handler; one notification is issued and delivered. -/
def c7world (e v : Value) : World :=
  let s0 := initPromise {} none
  let s1 := thenMeth s0.1 0 none none (some (.raiseE e))
  let s2 := thenMeth s1.1 0 none none (some .ident)
  runTasks (notify s2.1 0 v) 1

/-- Scenario for claim C9: pending promise 0 has a derived promise with a
progress handler and a raw notified listener, a notification is issued,
and then the promise is fulfilled before the scheduler delivers. -/
def c9world : World :=
  let s0 := initPromise {} none
  let s1 := thenMeth s0.1 0 none none (some .ident)
  let w2 := onEv s1.1 0 .notified (.raw (.mark 3))
  fulfill (notify w2 0 (.prim 5)) 0 (.prim 9)

/-- A settled promise with a stored fulfillment value, used by the witness
of claim C8. -/
def c8wit : World := fulfill pendingW 0 (.prim 7)

/-- A minimal world for the witness of claim C4: pending promise 0 with a
registered canceller wrapper and an adoption-wired cancel forwarder, plus
the cancellable duck 0. -/
def c4wit : World :=
  { promises := [(0, { events := [(.cancelled, .tryer (.mark 1)),
                                  (.cancelled, .cancelFwd (.duckRef 0))] })],
    ducks := [(0, { hasCancel := true })],
    nextP := 1, nextD := 1 }

theorem assocFind_cons {α : Type} (k1 : Nat) (a : α) (t : List (Nat × α)) (q : Nat) :
    assocFind ((k1, a) :: t) q = if k1 = q then some a else assocFind t q := rfl

theorem assocUpd_cons_eq {α : Type} (k : Nat) (a : α) (t : List (Nat × α)) (f : α → α) :
    assocUpd ((k, a) :: t) k f = (k, f a) :: assocUpd t k f := by
  simp [assocUpd]

theorem assocUpd_cons_ne {α : Type} {k1 k : Nat} (h : k1 ≠ k) (a : α)
    (t : List (Nat × α)) (f : α → α) :
    assocUpd ((k1, a) :: t) k f = (k1, a) :: assocUpd t k f := by
  simp [assocUpd, h]

theorem assocFind_assocUpd {α : Type} (l : List (Nat × α)) (k q : Nat) (f : α → α) :
    assocFind (assocUpd l k f) q =
      if q = k then (assocFind l k).map f else assocFind l q := by
  induction l with
  | nil => simp [assocUpd, assocFind]
  | cons e t ih =>
    obtain ⟨k1, a⟩ := e
    by_cases h1 : k1 = k
    · subst h1
      rw [assocUpd_cons_eq, assocFind_cons, assocFind_cons]
      by_cases h2 : k1 = q
      · subst h2
        simp
      · simp [assocFind_cons, h2, Ne.symm h2, ih]
    · rw [assocUpd_cons_ne h1, assocFind_cons, assocFind_cons]
      by_cases h2 : k1 = q
      · subst h2
        simp [assocFind_cons, h1]
      · simp [assocFind_cons, h1, h2, ih]

@[simp] theorem lookupP_updP (w : World) (p q : PId) (f : PromiseRec → PromiseRec) :
    lookupP (updP w p f) q = if q = p then (lookupP w p).map f else lookupP w q :=
  assocFind_assocUpd w.promises p q f

@[simp] theorem lookupD_updD (w : World) (d q : DId) (f : DuckRec → DuckRec) :
    lookupD (updD w d f) q = if q = d then (lookupD w d).map f else lookupD w q :=
  assocFind_assocUpd w.ducks d q f

@[simp] theorem lookupP_pushTask (w : World) (t : Task) (q : PId) :
    lookupP (pushTask w t) q = lookupP w q := rfl

@[simp] theorem lookupP_pushLog (w : World) (n : Nat) (q : PId) :
    lookupP (pushLog w n) q = lookupP w q := rfl

@[simp] theorem lookupP_updD (w : World) (d : DId) (f : DuckRec → DuckRec) (q : PId) :
    lookupP (updD w d f) q = lookupP w q := rfl

@[simp] theorem lookupD_updP (w : World) (p : PId) (f : PromiseRec → PromiseRec) (q : DId) :
    lookupD (updP w p f) q = lookupD w q := rfl

@[simp] theorem lookupD_pushTask (w : World) (t : Task) (q : DId) :
    lookupD (pushTask w t) q = lookupD w q := rfl

@[simp] theorem lookupD_pushLog (w : World) (n : Nat) (q : DId) :
    lookupD (pushLog w n) q = lookupD w q := rfl

@[simp] theorem lookupD_onEv (w : World) (p : PId) (t : EvType) (l : Listener) (q : DId) :
    lookupD (onEv w p t l) q = lookupD w q := rfl

@[simp] theorem tasks_updP (w : World) (p : PId) (f : PromiseRec → PromiseRec) :
    (updP w p f).tasks = w.tasks := rfl

@[simp] theorem tasks_updD (w : World) (d : DId) (f : DuckRec → DuckRec) :
    (updD w d f).tasks = w.tasks := rfl

@[simp] theorem tasks_pushLog (w : World) (n : Nat) :
    (pushLog w n).tasks = w.tasks := rfl

@[simp] theorem tasks_pushTask (w : World) (t : Task) :
    (pushTask w t).tasks = w.tasks ++ [t] := rfl

@[simp] theorem tasks_onEv (w : World) (p : PId) (t : EvType) (l : Listener) :
    (onEv w p t l).tasks = w.tasks := rfl

@[simp] theorem log_updP (w : World) (p : PId) (f : PromiseRec → PromiseRec) :
    (updP w p f).log = w.log := rfl

@[simp] theorem log_updD (w : World) (d : DId) (f : DuckRec → DuckRec) :
    (updD w d f).log = w.log := rfl

@[simp] theorem log_pushTask (w : World) (t : Task) :
    (pushTask w t).log = w.log := rfl

@[simp] theorem log_pushLog (w : World) (n : Nat) :
    (pushLog w n).log = w.log ++ [n] := rfl

@[simp] theorem log_onEv (w : World) (p : PId) (t : EvType) (l : Listener) :
    (onEv w p t l).log = w.log := rfl

@[simp] theorem ducks_updP (w : World) (p : PId) (f : PromiseRec → PromiseRec) :
    (updP w p f).ducks = w.ducks := rfl

@[simp] theorem ducks_pushTask (w : World) (t : Task) :
    (pushTask w t).ducks = w.ducks := rfl

@[simp] theorem ducks_pushLog (w : World) (n : Nat) :
    (pushLog w n).ducks = w.ducks := rfl

@[simp] theorem ducks_onEv (w : World) (p : PId) (t : EvType) (l : Listener) :
    (onEv w p t l).ducks = w.ducks := rfl

@[simp] theorem promises_pushTask (w : World) (t : Task) :
    (pushTask w t).promises = w.promises := rfl

@[simp] theorem promises_pushLog (w : World) (n : Nat) :
    (pushLog w n).promises = w.promises := rfl

@[simp] theorem promises_updD (w : World) (d : DId) (f : DuckRec → DuckRec) :
    (updD w d f).promises = w.promises := rfl

theorem lookupP_promEq {w w' : World} (h : w'.promises = w.promises) (q : PId) :
    lookupP w' q = lookupP w q := by
  unfold lookupP
  rw [h]

theorem fulfill_settled {w : World} {p : PId} {r : PromiseRec}
    (hp : lookupP w p = some r) (hs : r.settled = true) (v : Value) :
    fulfill w p v = w := by
  simp [fulfill, hp, hs]

theorem reject_settled {w : World} {p : PId} {r : PromiseRec}
    (hp : lookupP w p = some r) (hs : r.settled = true) (v : Value) :
    reject w p v = w := by
  simp [reject, hp, hs]

theorem notify_settled {w : World} {p : PId} {r : PromiseRec}
    (hp : lookupP w p = some r) (hs : r.settled = true) (v : Value) :
    notify w p v = w := by
  simp [notify, hp, hs]

theorem cancelMeth_settled {w : World} {p : PId} {r : PromiseRec}
    (hp : lookupP w p = some r) (hs : r.settled = true) :
    cancelMeth w p = w := by
  simp [cancelMeth, hp, hs]

theorem fulfill_pending {w : World} {p : PId} {r : PromiseRec}
    (hp : lookupP w p = some r) (hs : r.settled = false) (v : Value) :
    fulfill w p v =
      pushTask (updP w p fun r =>
        { r with fulfilled := true, settled := true, fulfillment_value := v })
        (.emitT p .resolved v) := by
  simp [fulfill, hp, hs]

theorem reject_pending {w : World} {p : PId} {r : PromiseRec}
    (hp : lookupP w p = some r) (hs : r.settled = false) (v : Value) :
    reject w p v =
      pushTask (updP w p fun r =>
        { r with rejected := true, settled := true, rejected_reason := v })
        (.emitT p .rejected v) := by
  simp [reject, hp, hs]

theorem notify_pending {w : World} {p : PId} {r : PromiseRec}
    (hp : lookupP w p = some r) (hs : r.settled = false) (v : Value) :
    notify w p v = pushTask w (.emitT p .notified v) := by
  simp [notify, hp, hs]

theorem promises_notify (w : World) (p : PId) (v : Value) :
    (notify w p v).promises = w.promises := by
  unfold notify
  split
  · rfl
  · split <;> rfl

theorem promises_fwdCancel (w : World) (v : Value) :
    (fwdCancel w v).promises = w.promises := by
  unfold fwdCancel
  split
  · split
    · split <;> rfl
    · rfl
  · rfl

theorem lookupP_onEv_ne {w : World} {p q : PId} (h : q ≠ p) (t : EvType) (l : Listener) :
    lookupP (onEv w p t l) q = lookupP w q := by
  simp [onEv, h]

theorem lookupP_fulfill_ne {w : World} {p q : PId} (h : q ≠ p) (v : Value) :
    lookupP (fulfill w p v) q = lookupP w q := by
  unfold fulfill
  split
  · rfl
  · split
    · rfl
    · simp [h]

theorem lookupP_reject_ne {w : World} {p q : PId} (h : q ≠ p) (v : Value) :
    lookupP (reject w p v) q = lookupP w q := by
  unfold reject
  split
  · rfl
  · split
    · rfl
    · simp [h]

theorem lookupP_notify (w : World) (p : PId) (v : Value) (q : PId) :
    lookupP (notify w p v) q = lookupP w q :=
  lookupP_promEq (promises_notify w p v) q

theorem lookupP_handle_thenable_ne {w : World} {p q : PId} (h : q ≠ p) (value : Value) :
    lookupP (handle_thenable w p value).1 q = lookupP w q := by
  unfold handle_thenable
  split
  · exact lookupP_reject_ne h _
  · split
    · split
      · rfl
      · split
        · simp [lookupP_reject_ne h, lookupP_onEv_ne h]
        · simp [lookupP_onEv_ne h]
    · rfl

theorem lookupP_resolve_ne {w : World} {p q : PId} (h : q ≠ p) (value : Value) :
    lookupP (resolve w p value) q = lookupP w q := by
  unfold resolve
  split
  · exact lookupP_fulfill_ne h _
  · dsimp only
    split
    · exact lookupP_handle_thenable_ne h _
    · rw [lookupP_fulfill_ne h, lookupP_handle_thenable_ne h]

theorem lookupP_applyResolver_ne {w : World} {p q : PId} (h : q ≠ p)
    (rsv : Resolver) (value : Value) :
    lookupP (applyResolver rsv w p value) q = lookupP w q := by
  cases rsv
  · exact lookupP_resolve_ne h _
  · exact lookupP_reject_ne h _

theorem lookupP_invoke_callback_ne {w : World} {p q : PId} (h : q ≠ p)
    (rsv : Resolver) (cb : Option UserCB) (detail : Value) :
    lookupP (invoke_callback rsv w p cb detail) q = lookupP w q := by
  unfold invoke_callback
  split
  · rfl
  · split
    · rfl
    · split
      · split
        · dsimp only
          split
          · exact lookupP_handle_thenable_ne h _
          · rw [lookupP_resolve_ne h, lookupP_handle_thenable_ne h]
        · dsimp only
          split
          · exact lookupP_handle_thenable_ne h _
          · rw [lookupP_reject_ne h, lookupP_handle_thenable_ne h]
      · dsimp only
        split
        · exact lookupP_handle_thenable_ne h _
        · rw [lookupP_applyResolver_ne h, lookupP_handle_thenable_ne h]

theorem lookupP_invoke_notify_callback_ne {w : World} {p q : PId} (h : q ≠ p)
    (cb : Option UserCB) (detail : Value) :
    lookupP (invoke_notify_callback w p cb detail) q = lookupP w q := by
  unfold invoke_notify_callback
  split
  · rfl
  · split
    · rfl
    · split
      · split
        · exact lookupP_notify _ _ _ _
        · rfl
      · exact lookupP_notify _ _ _ _

theorem invoke_callback_settled {w : World} {p : PId} {r : PromiseRec}
    (hp : lookupP w p = some r) (hs : r.settled = true)
    (rsv : Resolver) (cb : Option UserCB) (detail : Value) :
    invoke_callback rsv w p cb detail = w := by
  simp [invoke_callback, hp, hs]

theorem invoke_notify_callback_settled {w : World} {p : PId} {r : PromiseRec}
    (hp : lookupP w p = some r) (hs : r.settled = true)
    (cb : Option UserCB) (detail : Value) :
    invoke_notify_callback w p cb detail = w := by
  simp [invoke_notify_callback, hp, hs]

theorem runListener_lookup_settled {w : World} {p : PId} {r : PromiseRec}
    (hp : lookupP w p = some r) (hs : r.settled = true)
    (l : Listener) (detail : Value) :
    lookupP (runListener w l detail).1 p = some r := by
  cases l with
  | thenDone tp cb =>
    by_cases h : tp = p
    · subst h
      simp [runListener, invoke_callback_settled hp hs, hp]
    · simpa [runListener, lookupP_invoke_callback_ne (Ne.symm h)] using hp
  | thenFail tp cb =>
    by_cases h : tp = p
    · subst h
      simp [runListener, invoke_callback_settled hp hs, hp]
    · simpa [runListener, lookupP_invoke_callback_ne (Ne.symm h)] using hp
  | thenProgress tp cb =>
    by_cases h : tp = p
    · subst h
      simp [runListener, invoke_notify_callback_settled hp hs, hp]
    · simpa [runListener, lookupP_invoke_notify_callback_ne (Ne.symm h)] using hp
  | tryer c =>
    cases c <;> simpa [runListener] using hp
  | cancelFwd v =>
    simpa [runListener, lookupP_promEq (promises_fwdCancel w v)] using hp
  | raw c =>
    cases c <;> simpa [runListener] using hp

theorem runListeners_lookup_settled {p : PId} {r : PromiseRec} (detail : Value) :
    ∀ (ls : List Listener) (w : World),
      lookupP w p = some r → r.settled = true →
      lookupP (runListeners w ls detail).1 p = some r := by
  intro ls
  induction ls with
  | nil => intro w hp _; exact hp
  | cons l rest ih =>
    intro w hp hs
    unfold runListeners
    dsimp only
    split
    · exact runListener_lookup_settled hp hs l detail
    · exact ih _ (runListener_lookup_settled hp hs l detail) hs

theorem emit_lookup_settled {w : World} {p : PId} {r : PromiseRec}
    (hp : lookupP w p = some r) (hs : r.settled = true) (t : EvType) (detail : Value) :
    lookupP (emit w p t detail).1 p = some r :=
  runListeners_lookup_settled detail _ w hp hs

theorem cancelCore_lookup {w : World} {p : PId} {r : PromiseRec}
    (hp : lookupP w p = some r) (hs : r.settled = false) :
    lookupP (cancelCore w p).1 p =
      some { r with rejected := true, settled := true,
                    rejected_reason := .cancelExn "Cancelled" } := by
  have hp1 : lookupP (updP w p fun r =>
      { r with rejected := true, settled := true,
               rejected_reason := Value.cancelExn "Cancelled" }) p =
      some { r with rejected := true, settled := true,
                    rejected_reason := Value.cancelExn "Cancelled" } := by
    simp [hp]
  have he := emit_lookup_settled hp1 rfl .cancelled .vnone
  simp only [cancelCore, hp, hs, Bool.false_eq_true, if_false]
  split
  · simpa using he
  · simpa using he

theorem cancelMeth_pending {w : World} {p : PId} {r : PromiseRec}
    (hp : lookupP w p = some r) (hs : r.settled = false) :
    cancelMeth w p = (cancelCore w p).1 := by
  simp [cancelMeth, hp, hs]

theorem applySettleOp_settled {w : World} {p : PId} {r : PromiseRec}
    (hp : lookupP w p = some r) (hs : r.settled = true) (o : SettleOp) :
    applySettleOp w p o = w := by
  cases o with
  | fulfillO v => exact fulfill_settled hp hs v
  | rejectO v => exact reject_settled hp hs v
  | cancelO => exact cancelMeth_settled hp hs

theorem applySettleOps_settled {w : World} {p : PId} {r : PromiseRec}
    (hp : lookupP w p = some r) (hs : r.settled = true) (os : List SettleOp) :
    applySettleOps w p os = w := by
  induction os with
  | nil => rfl
  | cons o os ih =>
    unfold applySettleOps
    rw [applySettleOp_settled hp hs o]
    exact ih

/-- C1. For every promise and every finite sequence of fulfill, reject and
cancel calls applied to it, only the first call has effect: it settles the
promise once, storing the matching outcome, and every later fulfill, reject
or cancel call leaves the whole world unchanged, so state and stored
outcome never change after the first settlement. -/
theorem c1_settle_once (w : World) (p : PId) (r : PromiseRec)
    (hp : lookupP w p = some r) (hpend : r.settled = false)
    (hrf : r.fulfilled = false) (hrr : r.rejected = false)
    (o : SettleOp) (os : List SettleOp) :
    (∃ r1, lookupP (applySettleOp w p o) p = some r1 ∧ r1.settled = true ∧
      (match o with
       | .fulfillO v => r1.fulfilled = true ∧ r1.rejected = false ∧
           r1.fulfillment_value = v
       | .rejectO v => r1.rejected = true ∧ r1.fulfilled = false ∧
           r1.rejected_reason = v
       | .cancelO => r1.rejected = true ∧ r1.fulfilled = false ∧
           r1.rejected_reason = .cancelExn "Cancelled")) ∧
    applySettleOps (applySettleOp w p o) p os = applySettleOp w p o := by
  have key : ∃ r1, lookupP (applySettleOp w p o) p = some r1 ∧ r1.settled = true ∧
      (match o with
       | .fulfillO v => r1.fulfilled = true ∧ r1.rejected = false ∧
           r1.fulfillment_value = v
       | .rejectO v => r1.rejected = true ∧ r1.fulfilled = false ∧
           r1.rejected_reason = v
       | .cancelO => r1.rejected = true ∧ r1.fulfilled = false ∧
           r1.rejected_reason = .cancelExn "Cancelled") := by
    cases o with
    | fulfillO v =>
      refine ⟨{ r with fulfilled := true, settled := true,
                       fulfillment_value := v }, ?_, rfl, rfl, hrr, rfl⟩
      simp [applySettleOp, fulfill_pending hp hpend, hp]
    | rejectO v =>
      refine ⟨{ r with rejected := true, settled := true,
                       rejected_reason := v }, ?_, rfl, rfl, hrf, rfl⟩
      simp [applySettleOp, reject_pending hp hpend, hp]
    | cancelO =>
      refine ⟨{ r with rejected := true, settled := true,
                       rejected_reason := .cancelExn "Cancelled" }, ?_, rfl, rfl, hrf, rfl⟩
      rw [applySettleOp, cancelMeth_pending hp hpend]
      exact cancelCore_lookup hp hpend
  obtain ⟨r1, hr1, hs1, hrest⟩ := key
  exact ⟨⟨r1, hr1, hs1, hrest⟩, applySettleOps_settled hr1 hs1 os⟩

/-- Witness for C1 at a concrete pending promise and a concrete call
sequence. -/
theorem c1_settle_once_witness :
    (lookupP pendingW 0 = some {} ∧ ({} : PromiseRec).settled = false ∧
     ({} : PromiseRec).fulfilled = false ∧ ({} : PromiseRec).rejected = false) ∧
    ((∃ r1, lookupP (applySettleOp pendingW 0 (.fulfillO (.prim 1))) 0 = some r1 ∧
        r1.settled = true ∧
        (match SettleOp.fulfillO (Value.prim 1) with
         | .fulfillO v => r1.fulfilled = true ∧ r1.rejected = false ∧
             r1.fulfillment_value = v
         | .rejectO v => r1.rejected = true ∧ r1.fulfilled = false ∧
             r1.rejected_reason = v
         | .cancelO => r1.rejected = true ∧ r1.fulfilled = false ∧
             r1.rejected_reason = .cancelExn "Cancelled")) ∧
      applySettleOps (applySettleOp pendingW 0 (.fulfillO (.prim 1))) 0
          [.rejectO (.prim 2), .cancelO] =
        applySettleOp pendingW 0 (.fulfillO (.prim 1))) :=
  ⟨⟨by decide, rfl, rfl, rfl⟩,
   c1_settle_once pendingW 0 {} (by decide) rfl rfl rfl
     (.fulfillO (.prim 1)) [.rejectO (.prim 2), .cancelO]⟩

theorem RInv_default : RInv {} := ⟨rfl, by simp⟩

theorem WInv_promEq {w w' : World} (h : w'.promises = w.promises) (hw : WInv w) :
    WInv w' := by
  intro p r hp
  rw [lookupP_promEq h] at hp
  exact hw p r hp

theorem WInv_pushTask {w : World} (hw : WInv w) (t : Task) : WInv (pushTask w t) :=
  WInv_promEq rfl hw

theorem WInv_pushLog {w : World} (hw : WInv w) (n : Nat) : WInv (pushLog w n) :=
  WInv_promEq rfl hw

theorem WInv_updD {w : World} (hw : WInv w) (d : DId) (f : DuckRec → DuckRec) :
    WInv (updD w d f) :=
  WInv_promEq rfl hw

theorem WInv_updP {w : World} {p : PId} {f : PromiseRec → PromiseRec} (hw : WInv w)
    (hf : ∀ r, lookupP w p = some r → RInv (f r)) :
    WInv (updP w p f) := by
  intro q r1 hq
  simp only [lookupP_updP] at hq
  by_cases h : q = p
  · rw [if_pos h] at hq
    obtain ⟨r0, hr0, hfr⟩ := Option.map_eq_some'.mp hq
    rw [← hfr]
    exact hf r0 hr0
  · rw [if_neg h] at hq
    exact hw q r1 hq

theorem WInv_onEv {w : World} (hw : WInv w) (p : PId) (t : EvType) (l : Listener) :
    WInv (onEv w p t l) :=
  WInv_updP hw fun r0 h0 => (hw p r0 h0 : RInv r0)

theorem WInv_cons {w w' : World} (hw : WInv w) {p : PId} {rec : PromiseRec}
    (hr : RInv rec) (h : w'.promises = (p, rec) :: w.promises) : WInv w' := by
  intro q r1 hq
  unfold lookupP at hq
  rw [h, assocFind_cons] at hq
  by_cases hqp : p = q
  · rw [if_pos hqp] at hq
    injection hq with hh
    rw [← hh]
    exact hr
  · rw [if_neg hqp] at hq
    exact hw q r1 hq

theorem RInv_fulfill_upd {r : PromiseRec} (h : RInv r) (hs : r.settled = false)
    (v : Value) :
    RInv { r with fulfilled := true, settled := true, fulfillment_value := v } := by
  obtain ⟨h1, _⟩ := h
  rw [hs] at h1
  have hr : r.rejected = false := (Bool.or_eq_false_iff.mp h1.symm).2
  exact ⟨by simp [hr], by simp [hr]⟩

theorem RInv_reject_upd {r : PromiseRec} (h : RInv r) (hs : r.settled = false)
    (v : Value) :
    RInv { r with rejected := true, settled := true, rejected_reason := v } := by
  obtain ⟨h1, _⟩ := h
  rw [hs] at h1
  have hf : r.fulfilled = false := (Bool.or_eq_false_iff.mp h1.symm).1
  exact ⟨by simp [hf], by simp [hf]⟩

theorem WInv_fulfill {w : World} (hw : WInv w) (p : PId) (v : Value) :
    WInv (fulfill w p v) := by
  rcases hl : lookupP w p with _ | r
  · simpa [fulfill, hl] using hw
  · rcases hs : r.settled with _ | _
    · rw [fulfill_pending hl hs]
      apply WInv_pushTask
      apply WInv_updP hw
      intro r0 h0
      rw [hl] at h0
      injection h0 with h0
      subst h0
      exact RInv_fulfill_upd (hw p r hl) hs v
    · rw [fulfill_settled hl hs]
      exact hw

theorem WInv_reject {w : World} (hw : WInv w) (p : PId) (v : Value) :
    WInv (reject w p v) := by
  rcases hl : lookupP w p with _ | r
  · simpa [reject, hl] using hw
  · rcases hs : r.settled with _ | _
    · rw [reject_pending hl hs]
      apply WInv_pushTask
      apply WInv_updP hw
      intro r0 h0
      rw [hl] at h0
      injection h0 with h0
      subst h0
      exact RInv_reject_upd (hw p r hl) hs v
    · rw [reject_settled hl hs]
      exact hw

theorem WInv_notify {w : World} (hw : WInv w) (p : PId) (v : Value) :
    WInv (notify w p v) :=
  WInv_promEq (promises_notify w p v) hw

theorem WInv_handle_thenable {w : World} (hw : WInv w) (p : PId) (value : Value) :
    WInv (handle_thenable w p value).1 := by
  unfold handle_thenable
  split
  · exact WInv_reject hw _ _
  · split
    · split
      · exact hw
      · split
        · exact WInv_reject (WInv_onEv hw _ _ _) _ _
        · exact WInv_updD (WInv_onEv hw _ _ _) _ _
    · exact hw

theorem WInv_resolve {w : World} (hw : WInv w) (p : PId) (value : Value) :
    WInv (resolve w p value) := by
  unfold resolve
  split
  · exact WInv_fulfill hw _ _
  · dsimp only
    split
    · exact WInv_handle_thenable hw _ _
    · exact WInv_fulfill (WInv_handle_thenable hw _ _) _ _

theorem WInv_applyResolver {w : World} (hw : WInv w) (rsv : Resolver) (p : PId)
    (value : Value) : WInv (applyResolver rsv w p value) := by
  cases rsv
  · exact WInv_resolve hw _ _
  · exact WInv_reject hw _ _

theorem WInv_invoke_callback {w : World} (hw : WInv w) (rsv : Resolver) (p : PId)
    (cb : Option UserCB) (detail : Value) :
    WInv (invoke_callback rsv w p cb detail) := by
  unfold invoke_callback
  split
  · exact hw
  · split
    · exact hw
    · split
      · split
        · dsimp only
          split
          · exact WInv_handle_thenable hw _ _
          · exact WInv_resolve (WInv_handle_thenable hw _ _) _ _
        · dsimp only
          split
          · exact WInv_handle_thenable hw _ _
          · exact WInv_reject (WInv_handle_thenable hw _ _) _ _
      · dsimp only
        split
        · exact WInv_handle_thenable hw _ _
        · exact WInv_applyResolver (WInv_handle_thenable hw _ _) _ _ _

theorem WInv_invoke_notify_callback {w : World} (hw : WInv w) (p : PId)
    (cb : Option UserCB) (detail : Value) :
    WInv (invoke_notify_callback w p cb detail) := by
  unfold invoke_notify_callback
  split
  · exact hw
  · split
    · exact hw
    · split
      · split
        · exact WInv_notify hw _ _
        · exact hw
      · exact WInv_notify hw _ _

theorem WInv_fwdCancel {w : World} (hw : WInv w) (v : Value) :
    WInv (fwdCancel w v) :=
  WInv_promEq (promises_fwdCancel w v) hw

theorem WInv_runListener {w : World} (hw : WInv w) (l : Listener) (detail : Value) :
    WInv (runListener w l detail).1 := by
  cases l with
  | thenDone tp cb => exact WInv_invoke_callback hw _ _ _ _
  | thenFail tp cb => exact WInv_invoke_callback hw _ _ _ _
  | thenProgress tp cb => exact WInv_invoke_notify_callback hw _ _ _
  | tryer c => cases cterm : c <;> first
      | exact WInv_pushLog hw _
      | exact hw
  | cancelFwd v => exact WInv_fwdCancel hw _
  | raw c => cases c <;> first
      | exact WInv_pushLog hw _
      | exact hw

theorem WInv_runListeners (detail : Value) :
    ∀ (ls : List Listener) (w : World), WInv w → WInv (runListeners w ls detail).1 := by
  intro ls
  induction ls with
  | nil => intro w hw; exact hw
  | cons l rest ih =>
    intro w hw
    unfold runListeners
    dsimp only
    split
    · exact WInv_runListener hw l detail
    · exact ih _ (WInv_runListener hw l detail)

theorem WInv_emit {w : World} (hw : WInv w) (p : PId) (t : EvType) (detail : Value) :
    WInv (emit w p t detail).1 :=
  WInv_runListeners detail _ w hw

theorem WInv_cancelCore {w : World} (hw : WInv w) (p : PId) :
    WInv (cancelCore w p).1 := by
  rcases hl : lookupP w p with _ | r
  · simpa [cancelCore, hl] using hw
  · rcases hs : r.settled with _ | _
    · have hw1 : WInv (updP w p fun r =>
          { r with rejected := true, settled := true,
                   rejected_reason := Value.cancelExn "Cancelled" }) := by
        apply WInv_updP hw
        intro r0 h0
        rw [hl] at h0
        injection h0 with h0
        subst h0
        exact RInv_reject_upd (hw p r hl) hs _
      have hw2 := WInv_emit hw1 p .cancelled .vnone
      simp only [cancelCore, hl, hs, Bool.false_eq_true, if_false]
      split
      · exact hw2
      · exact WInv_pushTask hw2 _
    · simpa [cancelCore, hl, hs] using hw

theorem WInv_cancelMeth {w : World} (hw : WInv w) (p : PId) :
    WInv (cancelMeth w p) := by
  unfold cancelMeth
  split
  · exact hw
  · split
    · exact hw
    · exact WInv_cancelCore hw _

theorem WInv_fireDoneAt {w : World} (hw : WInv w) (d : DId) (i : Nat) (val : Value) :
    WInv (fireDoneAt w d i val) := by
  unfold fireDoneAt
  split
  · exact hw
  · split
    · exact hw
    · split
      · exact hw
      · dsimp only
        split
        · exact WInv_fulfill (WInv_updD hw _ _) _ _
        · exact WInv_resolve (WInv_updD hw _ _) _ _

theorem WInv_fireFailAt {w : World} (hw : WInv w) (d : DId) (i : Nat) (val : Value) :
    WInv (fireFailAt w d i val) := by
  unfold fireFailAt
  split
  · exact hw
  · split
    · exact hw
    · split
      · exact hw
      · exact WInv_reject (WInv_updD hw _ _) _ _

theorem WInv_fireProgAt {w : World} (hw : WInv w) (d : DId) (i : Nat) (val : Value) :
    WInv (fireProgAt w d i val) := by
  unfold fireProgAt
  split
  · exact hw
  · split
    · exact hw
    · exact WInv_notify hw _ _

theorem WInv_fireLoop (step : World → Nat → World)
    (hstep : ∀ w i, WInv w → WInv (step w i)) :
    ∀ (n i : Nat) (w : World), WInv w → WInv (fireLoop step w i n) := by
  intro n
  induction n with
  | zero => intro i w hw; exact hw
  | succ n ih => intro i w hw; exact ih _ _ (hstep w i hw)

theorem WInv_duckDo {w : World} (hw : WInv w) (d : DId) (val : Value) :
    WInv (duckDo w d val) := by
  unfold duckDo
  split
  · exact hw
  · exact WInv_fireLoop _ (fun w i h => WInv_fireDoneAt h d i val) _ _ _ hw

theorem WInv_duckFailOp {w : World} (hw : WInv w) (d : DId) (val : Value) :
    WInv (duckFailOp w d val) := by
  unfold duckFailOp
  split
  · exact hw
  · exact WInv_fireLoop _ (fun w i h => WInv_fireFailAt h d i val) _ _ _ hw

theorem WInv_duckNotifyOp {w : World} (hw : WInv w) (d : DId) (val : Value) :
    WInv (duckNotifyOp w d val) := by
  unfold duckNotifyOp
  split
  · exact hw
  · exact WInv_fireLoop _ (fun w i h => WInv_fireProgAt h d i val) _ _ _ hw

theorem WInv_initPromise {w : World} (hw : WInv w) (c : Option RawCode) :
    WInv (initPromise w c).1 := by
  unfold initPromise
  split
  · exact WInv_onEv (WInv_cons hw RInv_default rfl) _ _ _
  · exact WInv_cons hw RInv_default rfl

theorem WInv_newDuck {w : World} (hw : WInv w) (hc : Bool) (tr : Option Value) :
    WInv (newDuck w hc tr).1 :=
  WInv_promEq rfl hw

theorem WInv_thenMeth {w : World} (hw : WInv w) (p : PId)
    (done fail prog : Option UserCB) :
    WInv (thenMeth w p done fail prog).1 := by
  unfold thenMeth
  dsimp only
  have h0 : WInv (initPromise w none).1 := WInv_initPromise hw none
  apply WInv_onEv
  split
  · exact h0
  · split
    · split
      · apply WInv_pushTask
        split
        · exact WInv_pushTask h0 _
        · exact h0
      · split
        · exact WInv_pushTask h0 _
        · exact h0
    · exact WInv_onEv (WInv_onEv h0 _ _ _) _ _ _

theorem WInv_runTask {w : World} (hw : WInv w) (t : Task) : WInv (runTask w t) := by
  unfold runTask
  split
  · exact WInv_emit hw _ _ _
  · split
    · exact WInv_invoke_callback hw _ _ _ _
    · exact hw
  · split
    · exact WInv_invoke_callback hw _ _ _ _
    · exact hw

theorem WInv_runTasks :
    ∀ (fuel : Nat) (w : World), WInv w → WInv (runTasks w fuel) := by
  intro fuel
  induction fuel with
  | zero => intro w hw; exact hw
  | succ f ih =>
    intro w hw
    unfold runTasks
    split
    · exact hw
    · refine ih _ (WInv_runTask ?_ _)
      exact WInv_promEq rfl hw

theorem WInv_runStep {w : World} (hw : WInv w) (s : Step) : WInv (runStep w s) := by
  cases s with
  | newP c => exact WInv_initPromise hw c
  | newDuckS hc tr => exact WInv_newDuck hw hc tr
  | fulfillS p v => exact WInv_fulfill hw p v
  | rejectS p v => exact WInv_reject hw p v
  | notifyS p v => exact WInv_notify hw p v
  | cancelS p => exact WInv_cancelMeth hw p
  | resolveS p v => exact WInv_resolve hw p v
  | thenS p d f pr => exact WInv_thenMeth hw p d f pr
  | duckDoneS d v => exact WInv_duckDo hw d v
  | duckFailS d v => exact WInv_duckFailOp hw d v
  | duckNotifyS d v => exact WInv_duckNotifyOp hw d v
  | tick =>
    simp only [runStep]
    split
    · exact hw
    · refine WInv_runTask ?_ _
      exact WInv_promEq rfl hw

theorem WInv_runSteps {w : World} (hw : WInv w) (steps : List Step) :
    WInv (runSteps w steps) := by
  induction steps generalizing w with
  | nil => exact hw
  | cons s ss ih => exact ih (WInv_runStep hw s)

/-- C10. Starting from any world whose promise records satisfy the flag
invariant, every sequence of operations (construction, fulfill, reject,
cancel, notify, resolution, then, duck settlement, scheduler turns)
preserves it: settled equals the disjunction of fulfilled and rejected and
the two flags are never simultaneously true; hence on any settled promise
the dispatch of then selects exactly one branch (fulfilled if and only if
not rejected). -/
theorem c10_flag_invariant (w : World) (hw : WInv w) (steps : List Step) :
    WInv (runSteps w steps) ∧
    ∀ p r, lookupP (runSteps w steps) p = some r → r.settled = true →
      (r.fulfilled = true ↔ r.rejected = false) := by
  have hfin : WInv (runSteps w steps) := WInv_runSteps hw steps
  refine ⟨hfin, ?_⟩
  intro p r hp hs
  obtain ⟨h1, h2⟩ := hfin p r hp
  constructor
  · intro hf
    cases hrj : r.rejected
    · rfl
    · exact absurd ⟨hf, hrj⟩ h2
  · intro hrj
    rw [hs, hrj, Bool.or_false] at h1
    exact h1.symm

/-- Witness for C10: the empty world satisfies the invariant, and a
concrete run exercising construction, settlement, cancellation and a
scheduler turn preserves it. -/
theorem c10_flag_invariant_witness :
    WInv ({} : World) ∧
    (WInv (runSteps {} [.newP none, .fulfillS 0 (.prim 1), .cancelS 0, .tick]) ∧
     ∀ p r, lookupP (runSteps {}
         [.newP none, .fulfillS 0 (.prim 1), .cancelS 0, .tick]) p = some r →
       r.settled = true → (r.fulfilled = true ↔ r.rejected = false)) :=
  ⟨fun p r hp => by simp [lookupP, assocFind] at hp,
   c10_flag_invariant {} (fun p r hp => by simp [lookupP, assocFind] at hp)
     [.newP none, .fulfillS 0 (.prim 1), .cancelS 0, .tick]⟩

/-- C2 counterexample: promise 0 adopts duck thenable 0 and the duck then
settles fulfilled with itself; the on_done identity shortcut fulfills
promise 0 with the duck object itself as its value, so a promise resolved
with a thenable can fulfill with that very object, contrary to the claim. -/
theorem c2_thenable_adoption_cex :
    (lookupP (duckDo c2base 0 (.duckRef 0)) 0).map
      (fun r => (r.fulfilled, r.fulfillment_value)) = some (true, .duckRef 0) := by
  decide

/-- C2 amended: after promise 0 adopts duck thenable 0, the first
settlement signal of the duck is mirrored: inner fulfillment with a
non-thenable value m fulfills the promise with m, inner rejection with any
reason rejects it with that reason; only when the inner fulfillment value
is the duck itself does the promise fulfill with the adopted object
directly. -/
theorem c2_thenable_adoption_amended (m : Nat) (rsn : Value) :
    ((lookupP (duckDo c2base 0 (.prim m)) 0).map
      (fun r => (r.fulfilled, r.rejected, r.fulfillment_value)) =
        some (true, false, .prim m)) ∧
    ((lookupP (duckFailOp c2base 0 rsn) 0).map
      (fun r => (r.rejected, r.fulfilled, r.rejected_reason)) =
        some (true, false, rsn)) ∧
    ((lookupP (duckDo c2base 0 (.duckRef 0)) 0).map
      (fun r => (r.fulfilled, r.fulfillment_value)) =
        some (true, Value.duckRef 0)) :=
  ⟨rfl, rfl, by decide⟩

/-- C3 counterexample: promise 0 carries two resolved listeners, the first
raising prim 99 and the second recording mark 1; the emission aborts at the
first listener, the exception escapes to the caller of emit, and the
second listener never runs, so the log stays empty. -/
theorem c3_listener_isolation_cex :
    emit c3base 0 .resolved .vnone = (c3base, some (.prim 99)) ∧
    (emit c3base 0 .resolved .vnone).1.log = [] := by
  decide

theorem runListener_snd (w : World) (l : Listener) (detail : Value) :
    (runListener w l detail).2 = raisesOn l := by
  cases l with
  | thenDone tp cb => rfl
  | thenFail tp cb => rfl
  | thenProgress tp cb => rfl
  | tryer c => cases c <;> rfl
  | cancelFwd v => rfl
  | raw c => cases c <;> rfl

theorem runListeners_prefix_raise (detail e : Value) (post : List Listener) :
    ∀ (pre : List Listener) (w : World), (∀ l ∈ pre, raisesOn l = none) →
      runListeners w (pre ++ .raw (.raiseE e) :: post) detail =
        ((runListeners w pre detail).1, some e) := by
  intro pre
  induction pre with
  | nil => intro w _; rfl
  | cons l rest ih =>
    intro w hpre
    have hl : raisesOn l = none := hpre l (List.mem_cons_self l rest)
    have hsnd := runListener_snd w l detail
    rw [hl] at hsnd
    simp only [List.cons_append, runListeners]
    rw [hsnd]
    exact ih _ fun x hx => hpre x (List.mem_cons_of_mem l hx)

/-- C3 amended: when the listener sequence for an event kind consists of
non-raising listeners followed by a raising one, the emission runs exactly
the prefix, the raised exception escapes to the caller of emit, and the
listeners after the raising one are never invoked. -/
theorem c3_listener_isolation_amended (w : World) (p : PId) (t : EvType)
    (detail e : Value) (pre post : List Listener)
    (hls : listenersOf w p t = pre ++ .raw (.raiseE e) :: post)
    (hpre : ∀ l ∈ pre, raisesOn l = none) :
    emit w p t detail = ((runListeners w pre detail).1, some e) := by
  unfold emit
  rw [hls]
  exact runListeners_prefix_raise detail e post pre w hpre

/-- Witness for the amended C3 at the concrete two-listener world. -/
theorem c3_listener_isolation_amended_witness :
    (listenersOf c3base 0 .resolved =
      [] ++ .raw (.raiseE (.prim 99)) :: [.raw (.mark 1)]) ∧
    (∀ l ∈ ([] : List Listener), raisesOn l = none) ∧
    emit c3base 0 .resolved .vnone =
      ((runListeners c3base [] .vnone).1, some (.prim 99)) :=
  ⟨by decide, by simp,
   c3_listener_isolation_amended c3base 0 .resolved .vnone (.prim 99)
     [] [.raw (.mark 1)] (by decide) (by simp)⟩

/-- C4. Cancelling the pending promise 0 of c4world emits the cancelled
event synchronously before cancel returns: the user canceller mark n is
logged and the cancel request is forwarded to the adopted duck, while the
derived promise 1 is still untouched and the rejected emission, carrying
CancelException with message Cancelled, is merely queued for a later
scheduler turn; running the queue then rejects the derived promise with
that reason. -/
theorem c4_cancellation_ordering (w : World) (p : PId) (r : PromiseRec)
    (d : DId) (dr : DuckRec) (n : Nat)
    (hp : lookupP w p = some r) (hs : r.settled = false)
    (hl : listenersOf w p .cancelled =
      [.tryer (.mark n), .cancelFwd (.duckRef d)])
    (hd : lookupD w d = some dr) (hdc : dr.hasCancel = true) :
    ((cancelMeth w p).log = w.log ++ [n] ∧
     (lookupD (cancelMeth w p) d).map (·.cancelRequested) = some true ∧
     (cancelMeth w p).tasks =
       w.tasks ++ [.emitT p .rejected (.cancelExn "Cancelled")] ∧
     (lookupP (cancelMeth w p) p).map
        (fun x => (x.rejected, x.settled, x.rejected_reason)) =
       some (true, true, .cancelExn "Cancelled") ∧
     (∀ q, q ≠ p → lookupP (cancelMeth w p) q = lookupP w q)) ∧
    (lookupP (runTasks (cancelMeth (c4world 1) 0) 4) 1).map
        (fun x => (x.settled, x.rejected, x.rejected_reason)) =
      some (true, true, .cancelExn "Cancelled") := by
  have hw1p : lookupP (updP w p fun r =>
      { r with rejected := true, settled := true,
               rejected_reason := Value.cancelExn "Cancelled" }) p =
      some { r with rejected := true, settled := true,
                    rejected_reason := Value.cancelExn "Cancelled" } := by
    simp [hp]
  have hfl : (r.events.filter fun e => decide (e.1 = EvType.cancelled)).map (·.2) =
      [.tryer (.mark n), .cancelFwd (.duckRef d)] := by
    simpa [listenersOf, hp] using hl
  have hl1 : listenersOf (updP w p fun r =>
      { r with rejected := true, settled := true,
               rejected_reason := Value.cancelExn "Cancelled" }) p .cancelled =
      [.tryer (.mark n), .cancelFwd (.duckRef d)] := by
    simp only [listenersOf, hw1p]
    exact hfl
  have hemit : emit (updP w p fun r =>
      { r with rejected := true, settled := true,
               rejected_reason := Value.cancelExn "Cancelled" }) p .cancelled .vnone =
      (updD (pushLog (updP w p fun r =>
         { r with rejected := true, settled := true,
                  rejected_reason := Value.cancelExn "Cancelled" }) n) d
         (fun du => { du with cancelRequested := true }), none) := by
    simp [emit, hl1, runListeners, runListener, fwdCancel, hd, hdc]
  have hcm : cancelMeth w p =
      pushTask (updD (pushLog (updP w p fun r =>
          { r with rejected := true, settled := true,
                   rejected_reason := Value.cancelExn "Cancelled" }) n) d
        (fun du => { du with cancelRequested := true }))
        (.emitT p .rejected (.cancelExn "Cancelled")) := by
    rw [cancelMeth_pending hp hs]
    simp only [cancelCore, hp, hs, Bool.false_eq_true, if_false]
    rw [hemit]
  refine ⟨⟨?_, ?_, ?_, ?_, ?_⟩, by decide⟩
  · rw [hcm]
    simp
  · rw [hcm]
    simp [hd]
  · rw [hcm]
    simp
  · rw [hcm]
    simp [hp]
  · intro q hq
    rw [hcm]
    simp [hq]

/-- Witness for C4 at the minimal concrete world c4wit. -/
theorem c4_cancellation_ordering_witness :
    (lookupP c4wit 0 = some
      { events := [(.cancelled, .tryer (.mark 1)),
                   (.cancelled, .cancelFwd (.duckRef 0))] }) ∧
    (listenersOf c4wit 0 .cancelled =
      [.tryer (.mark 1), .cancelFwd (.duckRef 0)]) ∧
    (lookupD c4wit 0 = some { hasCancel := true }) ∧
    (((cancelMeth c4wit 0).log = c4wit.log ++ [1] ∧
      (lookupD (cancelMeth c4wit 0) 0).map (·.cancelRequested) = some true ∧
      (cancelMeth c4wit 0).tasks =
        c4wit.tasks ++ [.emitT 0 .rejected (.cancelExn "Cancelled")] ∧
      (lookupP (cancelMeth c4wit 0) 0).map
         (fun x => (x.rejected, x.settled, x.rejected_reason)) =
        some (true, true, .cancelExn "Cancelled") ∧
      (∀ q, q ≠ 0 → lookupP (cancelMeth c4wit 0) q = lookupP c4wit q)) ∧
     (lookupP (runTasks (cancelMeth (c4world 1) 0) 4) 1).map
         (fun x => (x.settled, x.rejected, x.rejected_reason)) =
       some (true, true, .cancelExn "Cancelled")) :=
  ⟨by decide, by decide, by decide,
   c4_cancellation_ordering c4wit 0
     { events := [(.cancelled, .tryer (.mark 1)),
                  (.cancelled, .cancelFwd (.duckRef 0))] }
     0 { hasCancel := true } 1 (by decide) rfl (by decide) (by decide) rfl⟩

/-- C5 counterexample: promise 0 rejected with the duck thenable 0 as its
reason; catch with no handler adopts the reason instead of passing it
through, and when the duck fulfills with prim 42 the derived promise 1 ends
fulfilled with 42 rather than rejected with the original reason. -/
theorem c5_rejection_passthrough_cex :
    (lookupP (runTasks (duckDo (c5run (.duckRef 0)) 0 (.prim 42)) 2) 1).map
      (fun r => (r.fulfilled, r.rejected, r.fulfillment_value)) =
      some (true, false, .prim 42) := by
  decide

/-- C5 amended: for every rejection reason that does not expose a
then-capable interface (and is not the yet-to-exist derived promise
itself, which cannot occur in the source language), catch with no handler
yields a derived promise settled exactly once, rejected with the identical
reason. -/
theorem c5_rejection_passthrough_amended (r : Value)
    (h1 : r ≠ .duckRef 0) (h2 : r ≠ .promiseRef 1) :
    (lookupP (c5run r) 1).map
      (fun x => (x.settled, x.rejected, x.fulfilled, x.rejected_reason)) =
      some (true, true, false, r) := by
  rcases r with _ | k | s | s | q | d
  · rfl
  · rfl
  · rfl
  · rfl
  · have hq : q ≠ 1 := by
      intro h
      exact h2 (by rw [h])
    simp [c5run, c5base, catchMeth, thenMeth, initPromise, newDuck, reject,
      fulfill, notify, onEv, updP, updD, lookupP, lookupD, pushTask, pushLog,
      assocFind, assocUpd, runTasks, runTask, emit, listenersOf, runListeners,
      runListener, invoke_callback, invoke_notify_callback, handle_thenable,
      resolve, applyResolver, runCB, hq]
  · have hd : d ≠ 0 := by
      intro h
      exact h1 (by rw [h])
    simp [c5run, c5base, catchMeth, thenMeth, initPromise, newDuck, reject,
      fulfill, notify, onEv, updP, updD, lookupP, lookupD, pushTask, pushLog,
      assocFind, assocUpd, runTasks, runTask, emit, listenersOf, runListeners,
      runListener, invoke_callback, invoke_notify_callback, handle_thenable,
      resolve, applyResolver, runCB, hd, Ne.symm hd]

/-- Witness for the amended C5 at a concrete non-thenable reason. -/
theorem c5_rejection_passthrough_amended_witness :
    (Value.prim 7 ≠ Value.duckRef 0) ∧ (Value.prim 7 ≠ Value.promiseRef 1) ∧
    (lookupP (c5run (.prim 7)) 1).map
      (fun x => (x.settled, x.rejected, x.fulfilled, x.rejected_reason)) =
      some (true, true, false, .prim 7) :=
  ⟨by decide, by decide,
   c5_rejection_passthrough_amended (.prim 7) (by decide) (by decide)⟩

/-- C6. Resolving a pending promise with itself fulfills it directly with
itself as the value, without entering thenable adoption (the duck table
and the listener table are untouched) and without looping; and when a then
callback returns the very derived promise it settles, that promise is
rejected with the TypeError of the source. -/
theorem c6_self_resolution_guard (w : World) (p : PId) (r : PromiseRec)
    (hp : lookupP w p = some r) (hs : r.settled = false) :
    (resolve w p (.promiseRef p) =
       pushTask (updP w p fun x =>
         { x with fulfilled := true, settled := true,
                  fulfillment_value := .promiseRef p })
         (.emitT p .resolved (.promiseRef p))) ∧
    (resolve w p (.promiseRef p)).ducks = w.ducks ∧
    (lookupP (resolve w p (.promiseRef p)) p).map (·.events) = some r.events ∧
    (lookupP c6world 1).map
        (fun x => (x.rejected, x.fulfilled, x.rejected_reason)) =
      some (true, false,
        .typeError "A promise callback cannot return that same promise.") := by
  have h1 : resolve w p (.promiseRef p) =
      pushTask (updP w p fun x =>
        { x with fulfilled := true, settled := true,
                 fulfillment_value := .promiseRef p })
        (.emitT p .resolved (.promiseRef p)) := by
    rw [resolve, if_pos rfl]
    exact fulfill_pending hp hs _
  refine ⟨h1, ?_, ?_, by decide⟩
  · rw [h1]
    rfl
  · rw [h1]
    simp [hp]

/-- Witness for C6 at a concrete pending promise. -/
theorem c6_self_resolution_guard_witness :
    (lookupP pendingW 0 = some {}) ∧ (({} : PromiseRec).settled = false) ∧
    ((resolve pendingW 0 (.promiseRef 0) =
       pushTask (updP pendingW 0 fun x =>
         { x with fulfilled := true, settled := true,
                  fulfillment_value := .promiseRef 0 })
         (.emitT 0 .resolved (.promiseRef 0))) ∧
     (resolve pendingW 0 (.promiseRef 0)).ducks = pendingW.ducks ∧
     (lookupP (resolve pendingW 0 (.promiseRef 0)) 0).map (·.events) =
       some ({} : PromiseRec).events ∧
     (lookupP c6world 1).map
         (fun x => (x.rejected, x.fulfilled, x.rejected_reason)) =
       some (true, false,
         .typeError "A promise callback cannot return that same promise.")) :=
  ⟨by decide, rfl, c6_self_resolution_guard pendingW 0 {} (by decide) rfl⟩

/-- C7. A raising progress handler swallows the notification at its link:
the derived promise 1 stays untouched (not notified, not settled), while
the remaining notified listener of the emitting promise still runs and
forwards the notification to the derived promise 2; nothing escapes to the
log or the scheduler beyond that forwarded notification. -/
theorem c7_progress_handler_isolation (e v : Value) :
    lookupP (c7world e v) 1 = some {} ∧
    (c7world e v).tasks = [.emitT 2 .notified v] ∧
    (c7world e v).log = [] :=
  ⟨rfl, rfl, rfl⟩

/-- C9 counterexample: promise 0 receives a notification while pending and
is then fulfilled before the scheduler runs; the queued notified emission
is still delivered on the later turn, after settlement: the raw notified
listener logs its mark and the progress listener forwards the notification
to the derived promise, contradicting the claim that no notified event is
ever emitted to listeners once the promise is settled. -/
theorem c9_late_notified_cex :
    (lookupP c9world 0).map (·.settled) = some true ∧
    (runTasks c9world 1).log = [3] ∧
    (runTasks c9world 1).tasks =
      [.emitT 0 .resolved (.prim 9), .emitT 1 .notified (.prim 5)] := by
  decide

/-- C9 amended: a notify call made on an already settled promise delivers
to no listener and changes nothing, and a notify call on a pending promise
only queues the notified emission for a later scheduler turn (so a
notification issued while pending can still reach listeners after the
promise settles). -/
theorem c9_notify_after_settlement_amended (w : World) (p : PId)
    (r : PromiseRec) (v : Value) (hp : lookupP w p = some r) :
    (r.settled = true → notify w p v = w) ∧
    (r.settled = false → notify w p v = pushTask w (.emitT p .notified v)) :=
  ⟨fun hs => notify_settled hp hs v, fun hs => notify_pending hp hs v⟩

/-- Witness for the amended C9 at a concrete settled promise. -/
theorem c9_notify_after_settlement_amended_witness :
    (lookupP c8wit 0 = some
      { rejected := false, fulfilled := true, rejected_reason := .vnone,
        fulfillment_value := .prim 7, settled := true, events := [] }) ∧
    ((({ rejected := false, fulfilled := true, rejected_reason := .vnone,
         fulfillment_value := .prim 7, settled := true,
         events := [] } : PromiseRec).settled = true →
        notify c8wit 0 (.prim 4) = c8wit) ∧
     (({ rejected := false, fulfilled := true, rejected_reason := .vnone,
         fulfillment_value := .prim 7, settled := true,
         events := [] } : PromiseRec).settled = false →
        notify c8wit 0 (.prim 4) = pushTask c8wit (.emitT 0 .notified (.prim 4)))) :=
  ⟨by decide,
   c9_notify_after_settlement_amended c8wit 0
     { rejected := false, fulfilled := true, rejected_reason := .vnone,
       fulfillment_value := .prim 7, settled := true, events := [] }
     (.prim 4) (by decide)⟩

/-- C8. Calling then on an already settled promise runs no reaction
synchronously within the call: the derived promise is freshly pending when
then returns, the log, the ducks and every other promise record are
unchanged, and exactly one reaction task is appended to the scheduler
queue (the fulfillment reaction if the promise is fulfilled, the rejection
reaction if rejected); when the scheduler later runs that task it performs
the very invocation the pending-registration listener would perform,
reading the stored outcome at that moment, so the behavior matches
registering before settlement. -/
theorem c8_late_subscription (w : World) (p : PId) (r : PromiseRec)
    (done fail prog : Option UserCB)
    (hp : lookupP w p = some r) (hs : r.settled = true) (hinv : RInv r)
    (hfresh : lookupP w w.nextP = none) :
    (thenMeth w p done fail prog).2 = w.nextP ∧
    lookupP (thenMeth w p done fail prog).1 w.nextP = some {} ∧
    (thenMeth w p done fail prog).1.tasks =
      w.tasks ++ [if r.fulfilled then Task.lateDone p w.nextP done
                  else Task.lateFail p w.nextP fail] ∧
    (thenMeth w p done fail prog).1.log = w.log ∧
    (thenMeth w p done fail prog).1.ducks = w.ducks ∧
    (∀ q, q ≠ p → q ≠ w.nextP →
      lookupP (thenMeth w p done fail prog).1 q = lookupP w q) ∧
    (∀ w2 r2 tp, lookupP w2 p = some r2 →
      runTask w2 (.lateDone p tp done) =
        invoke_callback .res w2 tp done r2.fulfillment_value ∧
      runTask w2 (.lateFail p tp fail) =
        invoke_callback .rej w2 tp fail r2.rejected_reason) ∧
    (∀ w2 tp detail,
      runListener w2 (.thenDone tp done) detail =
        (invoke_callback .res w2 tp done detail, none) ∧
      runListener w2 (.thenFail tp fail) detail =
        (invoke_callback .rej w2 tp fail detail, none)) := by
  have hne : p ≠ w.nextP := by
    intro h
    rw [h, hfresh] at hp
    cases hp
  have hw0p : lookupP { w with
      promises := (w.nextP, ({} : PromiseRec)) :: w.promises,
      nextP := w.nextP + 1 } p = some r := by
    unfold lookupP
    dsimp only
    rw [assocFind_cons, if_neg (Ne.symm hne)]
    exact hp
  have hT : ∃ T : Task,
      T = (if r.fulfilled then Task.lateDone p w.nextP done
           else Task.lateFail p w.nextP fail) ∧
      thenMeth w p done fail prog =
        (onEv (pushTask { w with
            promises := (w.nextP, ({} : PromiseRec)) :: w.promises,
            nextP := w.nextP + 1 } T) p .notified
          (.thenProgress w.nextP prog), w.nextP) := by
    cases hf : r.fulfilled with
    | true =>
      have hrj : r.rejected = false := by
        cases h2 : r.rejected
        · rfl
        · exact absurd ⟨hf, h2⟩ hinv.2
      refine ⟨Task.lateDone p w.nextP done, by simp, ?_⟩
      simp [thenMeth, initPromise, hw0p, hs, hf, hrj]
    | false =>
      have hrj : r.rejected = true := by
        have h1 := hinv.1
        rw [hs, hf, Bool.false_or] at h1
        exact h1.symm
      refine ⟨Task.lateFail p w.nextP fail, by simp, ?_⟩
      simp [thenMeth, initPromise, hw0p, hs, hf, hrj]
  obtain ⟨T, hTdef, hthm⟩ := hT
  refine ⟨by rw [hthm], ?_, ?_, by rw [hthm]; simp, by rw [hthm]; simp,
    ?_, ?_, ?_⟩
  · rw [hthm]
    simp only [onEv, lookupP_updP, if_neg (Ne.symm hne), lookupP_pushTask]
    unfold lookupP
    dsimp only
    rw [assocFind_cons, if_pos rfl]
  · rw [hthm, hTdef]
    simp
  · intro q hqp hqn
    rw [hthm]
    simp only [onEv, lookupP_updP, if_neg hqp, lookupP_pushTask]
    unfold lookupP
    dsimp only
    rw [assocFind_cons, if_neg (Ne.symm hqn)]
  · intro w2 r2 tp h2
    constructor
    · simp [runTask, h2]
    · simp [runTask, h2]
  · intro w2 tp detail
    exact ⟨rfl, rfl⟩

/-- Witness for C8 at a concrete fulfilled promise. -/
theorem c8_late_subscription_witness :
    (lookupP c8wit 0 = some
      { rejected := false, fulfilled := true, rejected_reason := .vnone,
        fulfillment_value := .prim 7, settled := true, events := [] }) ∧
    (RInv { rejected := false, fulfilled := true, rejected_reason := .vnone,
            fulfillment_value := .prim 7, settled := true, events := [] }) ∧
    (lookupP c8wit c8wit.nextP = none) ∧
    ((thenMeth c8wit 0 none none none).2 = c8wit.nextP ∧
     lookupP (thenMeth c8wit 0 none none none).1 c8wit.nextP = some {} ∧
     (thenMeth c8wit 0 none none none).1.tasks =
       c8wit.tasks ++
         [if ({ rejected := false, fulfilled := true, rejected_reason := .vnone,
                fulfillment_value := .prim 7, settled := true,
                events := [] } : PromiseRec).fulfilled then
            Task.lateDone 0 c8wit.nextP none
          else Task.lateFail 0 c8wit.nextP none] ∧
     (thenMeth c8wit 0 none none none).1.log = c8wit.log ∧
     (thenMeth c8wit 0 none none none).1.ducks = c8wit.ducks ∧
     (∀ q, q ≠ 0 → q ≠ c8wit.nextP →
       lookupP (thenMeth c8wit 0 none none none).1 q = lookupP c8wit q) ∧
     (∀ w2 r2 tp, lookupP w2 0 = some r2 →
       runTask w2 (.lateDone 0 tp none) =
         invoke_callback .res w2 tp none r2.fulfillment_value ∧
       runTask w2 (.lateFail 0 tp none) =
         invoke_callback .rej w2 tp none r2.rejected_reason) ∧
     (∀ w2 tp detail,
       runListener w2 (.thenDone tp none) detail =
         (invoke_callback .res w2 tp none detail, none) ∧
       runListener w2 (.thenFail tp none) detail =
         (invoke_callback .rej w2 tp none detail, none))) :=
  ⟨by decide, ⟨by decide, by decide⟩, by decide,
   c8_late_subscription c8wit 0
     { rejected := false, fulfilled := true, rejected_reason := .vnone,
       fulfillment_value := .prim 7, settled := true, events := [] }
     none none none (by decide) (by decide) ⟨by decide, by decide⟩ (by decide)⟩

end Promy
